import Mathlib

set_option maxRecDepth 10000

/-!
# Verification of the go-cache-prog GOCACHEPROG server

A shallow embedding of `cache/server.go` from the go-cache-prog
repository: the request/response data model, the `ServeMux` command
registry with middleware composition (`Apply`), the put-body codec
(`decodePutBody`), and the dispatcher read loop (`server.serve` with
`asyncHandleRequest`), modelled as a schedule-indexed function producing
the outbound response trace.

Concurrency is modelled by an explicit schedule: at the start of each
loop iteration the schedule chooses which pending asynchronous
operations complete (in any order, by index selection), and for each
launched operation whether it wins the semaphore-token race or its
context deadline fires first.  `close` and the fatal-decode branch
drain every pending operation before terminating, exactly as
`sync.WaitGroup.Wait` does in the source.

A handler is modelled by the single `Response` it writes (the Handler
capability contract: each handler calls the `ResponseWriter` exactly
once).
-/

namespace GoCacheProg

/-- `type Cmd string` from the source. -/
abbrev Cmd := String

/-- `CmdGet = Cmd("get")`. -/
def CmdGet : Cmd := "get"

/-- `CmdPut = Cmd("put")`. -/
def CmdPut : Cmd := "put"

/-- `CmdClose = Cmd("close")`. -/
def CmdClose : Cmd := "close"

/-- The `Request` struct of the protocol.  `Body io.Reader` is modelled by
`bodyB64`, the raw base64 JSON string the lazy `base64.NewDecoder` was
given by `decodePutBody` (empty when no body was attached). -/
structure Request where
  ID : Int := 0
  Command : Cmd := ""
  ActionID : List Nat := []
  OutputID : List Nat := []
  BodySize : Int := 0
  ObjectID : List Nat := []
  bodyB64 : String := ""
deriving DecidableEq, Inhabited

/-- The `Response` struct of the protocol.  `Time *time.Time` is modelled
as an optional integer timestamp. -/
structure Response where
  ID : Int := 0
  Err : String := ""
  KnownCommands : List Cmd := []
  Miss : Bool := false
  OutputID : List Nat := []
  Size : Int := 0
  Time : Option Int := none
  DiskPath : String := ""
deriving DecidableEq, Inhabited

/-- A `Handler` is modelled by the one `Response` it writes to the
`ResponseWriter` (the capability contract: exactly one write per
invocation). -/
def Handler := Request → Response

instance : Inhabited Handler := ⟨fun _ => default⟩

/-- `type Middleware func(Handler) Handler`. -/
def Middleware := Handler → Handler

/-- The `ServeMux` registry.  The Go map `m map[Cmd]Handler` can only ever
hold the three keys of `allowedCommands` (`HandleFunc` panics on any
other key), so it is represented by one optional handler per allowed
command.  `middleware` is the `Use`-accumulated list, in registration
order. -/
structure Mux where
  mGet : Option Handler := none
  mPut : Option Handler := none
  mClose : Option Handler := none
  middleware : List Middleware := []

/-- Map lookup `serveMux.m[r.Command]`. -/
def Mux.lookup (mux : Mux) (c : Cmd) : Option Handler :=
  if c = CmdGet then mux.mGet
  else if c = CmdPut then mux.mPut
  else if c = CmdClose then mux.mClose
  else none

/-- `ServeMux.HandleFunc`: registration overwrites any previous handler
for the same command (map assignment, last registration wins); a command
outside `allowedCommands` panics, modelled by `none`. -/
def Mux.handleFunc (mux : Mux) (c : Cmd) (h : Handler) : Option Mux :=
  if c = CmdGet then some { mux with mGet := some h }
  else if c = CmdPut then some { mux with mPut := some h }
  else if c = CmdClose then some { mux with mClose := some h }
  else none

/-- `ServeMux.Use`: appends to the middleware list. -/
def Mux.use (mux : Mux) (ms : List Middleware) : Mux :=
  { mux with middleware := mux.middleware ++ ms }

/-- `ServeMux.Apply`: the loop
`for i := range len(middleware) { h = middleware[(len(middleware)-1)-i](h) }`. -/
def Mux.Apply (h : Handler) (middleware : List Middleware) : Handler :=
  (List.range middleware.length).foldl
    (fun acc i => (middleware.getD (middleware.length - 1 - i) (fun x => x)) acc) h

/-- `ServeMux.knownCommands`: the keys of `m` that hold a handler.  Go map
iteration order is unspecified; the model fixes one order, and the
theorems about it are stated as membership. -/
def Mux.knownCommands (mux : Mux) : List Cmd :=
  (if mux.mGet.isSome then [CmdGet] else []) ++
  (if mux.mPut.isSome then [CmdPut] else []) ++
  (if mux.mClose.isSome then [CmdClose] else [])

/-- `server.handleRequest`: look the command up in the registry; if absent
write an unknown-command error Response, otherwise run the
middleware-composed handler chain.  The single Response the chain writes
is the function result. -/
def handleRequest (mux : Mux) (r : Request) : Response :=
  match mux.lookup r.Command with
  | none => { ID := r.ID, Err := "error: unknown command: " ++ r.Command }
  | some h => Mux.Apply h mux.middleware r

/-- Index of a character in the standard base64 alphabet
(`base64.StdEncoding`). -/
def b64Index (c : Char) : Option Nat :=
  if ('A' ≤ c ∧ c ≤ 'Z') then some (c.toNat - 'A'.toNat)
  else if ('a' ≤ c ∧ c ≤ 'z') then some (c.toNat - 'a'.toNat + 26)
  else if ('0' ≤ c ∧ c ≤ '9') then some (c.toNat - '0'.toNat + 52)
  else if c = '+' then some 62
  else if c = '/' then some 63
  else none

/-- Decode one base64 quantum (four characters, the last chunk possibly
padded with `=`) into its bytes. -/
def b64Quantum (a b c d : Char) : Option (List Nat) := do
  let sa ← b64Index a
  let sb ← b64Index b
  if c = '=' ∧ d = '=' then
    pure [sa * 4 + sb / 16]
  else do
    let sc ← b64Index c
    if d = '=' then
      pure [sa * 4 + sb / 16, (sb % 16) * 16 + sc / 4]
    else do
      let sd ← b64Index d
      pure [sa * 4 + sb / 16, (sb % 16) * 16 + sc / 4, (sc % 4) * 64 + sd]

/-- Decode a base64 character stream chunk by chunk. -/
def b64DecodeChars : List Char → Option (List Nat)
  | [] => some []
  | a :: b :: c :: d :: rest =>
    match rest with
    | [] => b64Quantum a b c d
    | _ :: _ => do
      let bytes ← b64Quantum a b c d
      let more ← b64DecodeChars rest
      pure (bytes ++ more)
  | _ => none

/-- Standard-alphabet base64 decoding of a whole string, as
`base64.NewDecoder(base64.StdEncoding, ...)` produces when the body is
read to completion; `none` models a `CorruptInputError`. -/
def base64Decode (s : String) : Option (List Nat) :=
  b64DecodeChars s.data

/-- One inbound JSON value on the wire.  `reqMsg` is a value that decodes
into a `Request`; `strMsg` is a JSON string value; `badMsg e` is a value
on which `json.Decoder.Decode` fails with error text `e` (for example
malformed JSON, or EOF), leaving the decoder unusable. -/
inductive InMsg where
  | reqMsg (r : Request)
  | strMsg (s : String)
  | badMsg (e : String)
deriving DecidableEq, Inhabited

/-- `server.decodePutBody`: when `BodySize == 0` the body is an empty
reader and nothing is consumed from the stream; otherwise the next JSON
value is decoded as a string (failing if it is not a string value) and
stored, un-decoded, as the lazy base64 body reader.  No check relates
the string's decoded length to `BodySize`.  The second component is the
inbound stream after the call. -/
def decodePutBody (req : Request) (msgs : List InMsg) :
    Except String Request × List InMsg :=
  if req.BodySize = 0 then
    (.ok { req with bodyB64 := "" }, msgs)
  else
    match msgs with
    | .strMsg s :: rest => (.ok { req with bodyB64 := s }, rest)
    | .reqMsg _ :: rest =>
      (.error "json: cannot unmarshal object into Go value of type string", rest)
    | .badMsg e :: rest => (.error e, .badMsg e :: rest)
    | [] => (.error "EOF", [])

theorem decodePutBody_length (req : Request) (msgs : List InMsg) :
    (decodePutBody req msgs).2.length ≤ msgs.length := by
  unfold decodePutBody
  split
  · exact Nat.le_refl _
  · cases msgs with
    | nil => exact Nat.le_refl _
    | cons m rest => cases m <;> simp

theorem decodePutBody_ok (req : Request) (msgs : List InMsg) (r2 : Request)
    (h : (decodePutBody req msgs).1 = .ok r2) :
    r2.ID = req.ID ∧ r2.Command = req.Command ∧ r2.BodySize = req.BodySize := by
  unfold decodePutBody at h
  split at h
  · cases h; exact ⟨rfl, rfl, rfl⟩
  · cases msgs with
    | nil => cases h
    | cons m rest =>
      cases m with
      | reqMsg r => cases h
      | strMsg s =>
        injection h with h2
        subst h2
        exact ⟨rfl, rfl, rfl⟩
      | badMsg e => cases h

/-- One asynchronous operation launched by `asyncHandleRequest`:
the request it carries and the schedule's resolution of the
`select` race — `true` when a semaphore token is acquired before the
context deadline, `false` when `ctx.Done()` fires first. -/
structure Op where
  req : Request
  tokenAcquired : Bool
deriving DecidableEq, Inhabited

/-- The single Response an asynchronous operation writes: the composed
handler chain's Response when the token race is won (`s.handleRequest`),
or the cancellation error Response from the `ctx.Done()` branch of the
`select`. -/
def opResponse (mux : Mux) (op : Op) : Response :=
  if op.tokenAcquired then handleRequest mux op.req
  else { ID := op.req.ID, Err := "context canceled: context deadline exceeded" }

/-- Complete some pending operations, one per scheduled index (taken
modulo the current number of pending operations), in the scheduled
order.  Returns the completed operations in completion order and the
operations still pending. -/
def flushOps : List Op → List Nat → List Op × List Op
  | pending, [] => ([], pending)
  | [], _ :: _ => ([], [])
  | p :: ps, i :: is =>
    let j := i % (p :: ps).length
    let fl := flushOps ((p :: ps).eraseIdx j) is
    ((p :: ps).getD j p :: fl.1, fl.2)

/-- Fuel-indexed worker for `drainAll`. -/
def drainAux : Nat → List Op → List Nat → List Op
  | 0, _, _ => []
  | _ + 1, [], _ => []
  | n + 1, p :: ps, idxs =>
    let j := idxs.headD 0 % (p :: ps).length
    (p :: ps).getD j p :: drainAux n ((p :: ps).eraseIdx j) idxs.tail

/-- `sync.WaitGroup.Wait`: every pending operation completes, in the
order the schedule's index stream selects. -/
def drainAll (pending : List Op) (idxs : List Nat) : List Op :=
  drainAux pending.length pending idxs

/-- One step of the schedule: which pending operations complete before
the loop's next `Decode` returns, and the token-race outcome for an
operation launched in this iteration. -/
abbrev SchedStep := List Nat × Bool

instance {ε α : Type _} [DecidableEq ε] [DecidableEq α] :
    DecidableEq (Except ε α) := fun a b =>
  match a, b with
  | .ok x, .ok y =>
    if h : x = y then .isTrue (by rw [h]) else .isFalse (by simp [h])
  | .error e, .error f =>
    if h : e = f then .isTrue (by rw [h]) else .isFalse (by simp [h])
  | .ok _, .error _ => .isFalse (by simp)
  | .error _, .ok _ => .isFalse (by simp)

/-- The observable outcome of a `server.serve` run.  `out` is the
outbound response trace in write order; `launched` records the
operations handed to `asyncHandleRequest` during the run; `sync`
records the responses the read loop itself wrote (put-body failures,
unknown commands, and the close handler's response); `result` is the
return value of `serve`. -/
structure RunOut where
  out : List Response
  launched : List Op
  sync : List Response
  result : Except String Unit
deriving DecidableEq

/-- The read loop of `server.serve`, from the first `Decode` on.  The
schedule `steps` resolves, per iteration, which pending asynchronous
operations complete while the loop is blocked in `Decode` and the
token race of a newly launched operation; `drainIdx` orders the final
drain.  Branches, in source order: fatal decode failure (drain, return
wrapped error), `CmdGet` (launch), `CmdPut` (decode body — on failure
write one error Response and continue — then launch), `CmdClose`
(drain, run the close handler synchronously, return nil), and the
default branch (write one unknown-command error Response and
continue). -/
def serveLoop (mux : Mux) : List InMsg → List Op → List SchedStep → List Nat → RunOut
  | msgs, pending, steps, drainIdx =>
    let st := steps.headD ([], true)
    let fl := flushOps pending st.1
    let flushedOut := fl.1.map (opResponse mux)
    match msgs with
    | [] =>
      ⟨flushedOut ++ (drainAll fl.2 drainIdx).map (opResponse mux), [], [],
        .error "error: invalid request: EOF"⟩
    | .badMsg e :: _ =>
      ⟨flushedOut ++ (drainAll fl.2 drainIdx).map (opResponse mux), [], [],
        .error ("error: invalid request: " ++ e)⟩
    | .strMsg _ :: _ =>
      ⟨flushedOut ++ (drainAll fl.2 drainIdx).map (opResponse mux), [], [],
        .error
          "error: invalid request: json: cannot unmarshal string into Go value of type cache.Request"⟩
    | .reqMsg r :: rest =>
      if r.Command = CmdGet then
        let res := serveLoop mux rest (fl.2 ++ [⟨r, st.2⟩]) steps.tail drainIdx
        ⟨flushedOut ++ res.out, ⟨r, st.2⟩ :: res.launched, res.sync, res.result⟩
      else if r.Command = CmdPut then
        match hbody : decodePutBody r rest with
        | (.ok r2, rest2) =>
          let res := serveLoop mux rest2 (fl.2 ++ [⟨r2, st.2⟩]) steps.tail drainIdx
          ⟨flushedOut ++ res.out, ⟨r2, st.2⟩ :: res.launched, res.sync, res.result⟩
        | (.error e, rest2) =>
          let resp : Response :=
            { ID := r.ID, Err := "error: failed to decode request body: " ++ e }
          let res := serveLoop mux rest2 fl.2 steps.tail drainIdx
          ⟨flushedOut ++ resp :: res.out, res.launched, resp :: res.sync, res.result⟩
      else if r.Command = CmdClose then
        let drained := (drainAll fl.2 drainIdx).map (opResponse mux)
        let closeResp := handleRequest mux r
        ⟨flushedOut ++ drained ++ [closeResp], [], [closeResp], .ok ()⟩
      else
        let resp : Response :=
          { ID := r.ID, Err := "error: " ++ r.Command ++ " is unknown command" }
        let res := serveLoop mux rest fl.2 steps.tail drainIdx
        ⟨flushedOut ++ resp :: res.out, res.launched, resp :: res.sync, res.result⟩
  termination_by msgs _ _ _ => msgs.length
  decreasing_by
  all_goals simp only [List.length_cons]
  · omega
  · have := decodePutBody_length r rest
    rw [hbody] at this
    simp at this
    omega
  · have := decodePutBody_length r rest
    rw [hbody] at this
    simp at this
    omega
  · omega

/-- The sequence of Requests the read loop successfully decodes from an
inbound stream (the same walk `serveLoop` performs, without the
responses): decoding stops at the first fatal decode failure and after
a `close`. -/
def decodedRequests : List InMsg → List Request
  | [] => []
  | .badMsg _ :: _ => []
  | .strMsg _ :: _ => []
  | .reqMsg r :: rest =>
    if r.Command = CmdGet then r :: decodedRequests rest
    else if r.Command = CmdPut then
      r :: decodedRequests (decodePutBody r rest).2
    else if r.Command = CmdClose then [r]
    else r :: decodedRequests rest
  termination_by msgs => msgs.length
  decreasing_by
  all_goals simp only [List.length_cons]
  · omega
  · have := decodePutBody_length r rest
    omega
  · omega

/-- `server.ack`: the ID=0 capability announcement. -/
def ackResponse (mux : Mux) : Response :=
  { ID := 0, KnownCommands := mux.knownCommands }

/-- `server.serve`: write the announcement, then run the read loop. -/
def serve (mux : Mux) (msgs : List InMsg) (steps : List SchedStep)
    (drainIdx : List Nat) : RunOut :=
  let res := serveLoop mux msgs [] steps drainIdx
  { res with out := ackResponse mux :: res.out }

/-- `defaultTimeout = 30 * time.Second`, in nanoseconds. -/
def defaultTimeout : Nat := 30 * 1000000000

/-- `defaultConcurrency = 8`. -/
def defaultConcurrency : Nat := 8

/-- The configurable fields of the `server` struct: the per-request
timeout (`time.Duration`, nanoseconds) and the capacity of the
semaphore channel `sem chan struct\x7b\x7d`. -/
structure ServerConfig where
  timeout : Nat := defaultTimeout
  semCap : Nat := defaultConcurrency

/-- `WithConcurrency(concurrency uint)`: replaces the semaphore with a
channel of the given capacity.  The parameter is unsigned, so zero is
accepted. -/
def WithConcurrency (concurrency : Nat) : ServerConfig → ServerConfig :=
  fun s => { s with semCap := concurrency }

/-- `WithResponseTimeout(timeout time.Duration)`. -/
def WithResponseTimeout (timeout : Nat) : ServerConfig → ServerConfig :=
  fun s => { s with timeout := timeout }

/-- A buffered-channel send `s.sem <- struct\x7b\x7d\x7b\x7d` succeeds exactly when
the buffer is not full: with `inUse` tokens currently held out of
`cap`, acquisition requires `inUse < cap`.  (With capacity zero the
channel is unbuffered and no receiver ever exists before a send
succeeds, so no send ever completes.) -/
def canAcquireToken (cap inUse : Nat) : Bool :=
  inUse < cap

/-- The two outcomes of the `select` in `asyncHandleRequest`: the
semaphore send wins, or `ctx.Done()` fires first. -/
inductive Race where
  | token
  | ctxDone
deriving DecidableEq

/-- A race outcome is feasible for a semaphore of capacity `cap` only if
winning the token branch was possible at some occupancy. -/
def feasibleRace (cap : Nat) (o : Race) : Prop :=
  o = Race.token → ∃ inUse, canAcquireToken cap inUse = true

/-- What one launched goroutine of `asyncHandleRequest` does, by race
outcome: the responses it writes, whether `s.handleRequest` (the
composed handler chain) ran, and whether the token it acquired was
returned to the pool (`defer func() \x7b <-s.sem \x7d()`). -/
structure OpRun where
  written : List Response
  handlerRan : Bool
  tokenReleased : Bool
deriving DecidableEq

/-- The body of the goroutine launched by `asyncHandleRequest`. -/
def asyncOpRun (mux : Mux) (req : Request) (race : Race) : OpRun :=
  match race with
  | .token => ⟨[handleRequest mux req], true, true⟩
  | .ctxDone =>
    ⟨[{ ID := req.ID, Err := "context canceled: context deadline exceeded" }],
      false, false⟩

/-- Timing of one read-loop iteration, in nanoseconds.  In the source,
`context.WithTimeout` runs at the top of the iteration (server.go line
75), before `s.decoder.Decode` (line 77) blocks for `decodeDur`
waiting for the next inbound message, and before the put body is
decoded (`bodyDur`); `asyncHandleRequest` is only called after both. -/
structure IterTiming where
  iterStart : Nat
  decodeDur : Nat
  bodyDur : Nat
deriving DecidableEq

/-- The deadline `context.WithTimeout` installs: it is computed when the
context is created, at the top of the loop iteration. -/
def ctxDeadline (t : IterTiming) (timeout : Nat) : Nat :=
  t.iterStart + timeout

/-- The moment `asyncHandleRequest` launches the operation: after the
request (and, for put, its body) has been decoded. -/
def launchTime (t : IterTiming) : Nat :=
  t.iterStart + t.decodeDur + t.bodyDur

section PermLemmas

variable {α : Type _}

theorem getD_cons_eraseIdx_perm :
    ∀ (l : List α) (j : Nat) (d : α), j < l.length →
      (l.getD j d :: l.eraseIdx j).Perm l
  | [], j, _, h => absurd h (by simp)
  | a :: as, 0, d, _ => by simp
  | a :: as, j + 1, d, h => by
    have hj : j < as.length := by
      simpa [Nat.succ_lt_succ_iff] using h
    have ih := getD_cons_eraseIdx_perm as j d hj
    have hswap : (as.getD j d :: a :: as.eraseIdx j).Perm
        (a :: as.getD j d :: as.eraseIdx j) :=
      List.Perm.swap a (as.getD j d) (as.eraseIdx j)
    simpa [List.getD_cons_succ, List.eraseIdx_cons_succ] using
      hswap.trans (ih.cons a)

theorem flushOps_perm :
    ∀ (pending : List Op) (idxs : List Nat),
      ((flushOps pending idxs).1 ++ (flushOps pending idxs).2).Perm pending
  | pending, [] => by simp [flushOps]
  | [], _ :: _ => by simp [flushOps]
  | p :: ps, i :: is => by
    have hlt : i % (p :: ps).length < (p :: ps).length :=
      Nat.mod_lt _ (by simp)
    have herase :
        ((p :: ps).eraseIdx (i % (p :: ps).length)).length < (p :: ps).length := by
      rw [List.length_eraseIdx_of_lt hlt]
      simp
    have ih := flushOps_perm ((p :: ps).eraseIdx (i % (p :: ps).length)) is
    have hperm :=
      getD_cons_eraseIdx_perm (p :: ps) (i % (p :: ps).length) p hlt
    have hstep :
        ((flushOps (p :: ps) (i :: is)).1 ++ (flushOps (p :: ps) (i :: is)).2) =
          ((p :: ps).getD (i % (p :: ps).length) p ::
            ((flushOps ((p :: ps).eraseIdx (i % (p :: ps).length)) is).1 ++
             (flushOps ((p :: ps).eraseIdx (i % (p :: ps).length)) is).2)) := by
      simp [flushOps]
    rw [hstep]
    exact (ih.cons _).trans hperm

theorem drainAux_perm :
    ∀ (n : Nat) (l : List Op) (idxs : List Nat), l.length = n →
      (drainAux n l idxs).Perm l
  | 0, l, idxs, h => by
    rw [List.length_eq_zero] at h
    subst h
    simp [drainAux]
  | n + 1, [], idxs, h => by simp at h
  | n + 1, p :: ps, idxs, h => by
    have hlt : idxs.headD 0 % (p :: ps).length < (p :: ps).length :=
      Nat.mod_lt _ (by simp)
    have hlen :
        ((p :: ps).eraseIdx (idxs.headD 0 % (p :: ps).length)).length = n := by
      rw [List.length_eraseIdx_of_lt hlt]
      omega
    have ih := drainAux_perm n _ idxs.tail hlen
    have h1 : (drainAux (n + 1) (p :: ps) idxs).Perm
        ((p :: ps).getD (idxs.headD 0 % (p :: ps).length) p ::
          (p :: ps).eraseIdx (idxs.headD 0 % (p :: ps).length)) := by
      simpa [drainAux] using
        ih.cons ((p :: ps).getD (idxs.headD 0 % (p :: ps).length) p)
    exact h1.trans (getD_cons_eraseIdx_perm (p :: ps) _ p hlt)

theorem drainAll_perm (l : List Op) (idxs : List Nat) :
    (drainAll l idxs).Perm l :=
  drainAux_perm l.length l idxs rfl

end PermLemmas

theorem opResponse_ID (mux : Mux)
    (hEcho : ∀ req, (handleRequest mux req).ID = req.ID) (op : Op) :
    (opResponse mux op).ID = op.req.ID := by
  unfold opResponse
  split
  · exact hEcho op.req
  · rfl

theorem countP_mapOps (mux : Mux)
    (hEcho : ∀ req, (handleRequest mux req).ID = req.ID)
    (ops : List Op) (i : Int) :
    (ops.map (opResponse mux)).countP (fun resp => decide (resp.ID = i)) =
      ops.countP (fun op => decide (op.req.ID = i)) := by
  rw [List.countP_map]
  exact List.countP_congr fun op _ => by
    simp [Function.comp, opResponse_ID mux hEcho op]

theorem countP_flushDrain (mux : Mux)
    (hEcho : ∀ req, (handleRequest mux req).ID = req.ID)
    (pending : List Op) (idxs : List Nat) (drainIdx : List Nat) (i : Int) :
    (((flushOps pending idxs).1.map (opResponse mux) ++
        (drainAll (flushOps pending idxs).2 drainIdx).map
          (opResponse mux)).countP (fun resp => decide (resp.ID = i))) =
      pending.countP (fun op => decide (op.req.ID = i)) := by
  rw [List.countP_append, countP_mapOps mux hEcho, countP_mapOps mux hEcho,
    (drainAll_perm _ drainIdx).countP_eq, ← List.countP_append]
  exact (flushOps_perm pending idxs).countP_eq _

theorem countP_flushOnly (mux : Mux)
    (hEcho : ∀ req, (handleRequest mux req).ID = req.ID)
    (pending : List Op) (idxs : List Nat) (i : Int) :
    ((flushOps pending idxs).1.map (opResponse mux)).countP
        (fun resp => decide (resp.ID = i)) +
      (flushOps pending idxs).2.countP (fun op => decide (op.req.ID = i)) =
      pending.countP (fun op => decide (op.req.ID = i)) := by
  rw [countP_mapOps mux hEcho, ← List.countP_append]
  exact (flushOps_perm pending idxs).countP_eq _

/-- Response-count bookkeeping of the read loop: every operation
pending at entry and every request decoded during the run contributes
its responses to the outbound trace, and nothing else does. -/
theorem serveLoop_countP (mux : Mux)
    (hEcho : ∀ req, (handleRequest mux req).ID = req.ID) (i : Int)
    (msgs : List InMsg) (pending : List Op) (steps : List SchedStep)
    (drainIdx : List Nat) :
    ((serveLoop mux msgs pending steps drainIdx).out.countP
        (fun resp => decide (resp.ID = i))) =
      pending.countP (fun op => decide (op.req.ID = i)) +
      (decodedRequests msgs).countP (fun r => decide (r.ID = i)) := by
  induction msgs, pending, steps, drainIdx using serveLoop.induct mux with
  | case1 pending steps drainIdx =>
    rw [serveLoop]
    simpa [decodedRequests] using
      countP_flushDrain mux hEcho pending _ drainIdx i
  | case2 pending steps drainIdx e tail =>
    rw [serveLoop]
    simpa [decodedRequests] using
      countP_flushDrain mux hEcho pending _ drainIdx i
  | case3 pending steps drainIdx s tail =>
    rw [serveLoop]
    simpa [decodedRequests] using
      countP_flushDrain mux hEcho pending _ drainIdx i
  | case4 pending steps drainIdx st fl r rest hget ih =>
    unfold_let st fl at ih
    rw [serveLoop]
    rw [decodedRequests]
    rw [if_pos hget, if_pos hget]
    have hflush := countP_flushOnly mux hEcho pending
      (steps.headD ([], true)).1 i
    simp only [List.countP_append, List.countP_cons, List.countP_nil,
      ih, List.countP_map] at *
    omega
  | case5 pending steps drainIdx st fl r rest hget hput r2 rest2 hbody ih =>
    unfold_let st fl at ih
    have hdec : decodedRequests (InMsg.reqMsg r :: rest) =
        r :: decodedRequests rest2 := by
      rw [decodedRequests, if_neg hget, if_pos hput, hbody]
    rw [serveLoop, hdec, if_neg hget, if_pos hput]
    have hid := (decodePutBody_ok r rest r2 (by rw [hbody])).1
    have hflush := countP_flushOnly mux hEcho pending
      (steps.headD ([], true)).1 i
    split
    next r2x rest2x heq =>
      rw [hbody] at heq
      injection heq with heq1 heq2
      injection heq1 with heq1
      subst heq1
      subst heq2
      simp only [List.countP_append, List.countP_cons, List.countP_nil,
        ih, hid] at *
      omega
    next ex rest2x heq =>
      rw [hbody] at heq
      cases heq
  | case6 pending steps drainIdx st fl r rest hget hput e rest2 hbody ih =>
    unfold_let st fl at ih
    have hdec : decodedRequests (InMsg.reqMsg r :: rest) =
        r :: decodedRequests rest2 := by
      rw [decodedRequests, if_neg hget, if_pos hput, hbody]
    rw [serveLoop, hdec, if_neg hget, if_pos hput]
    have hflush := countP_flushOnly mux hEcho pending
      (steps.headD ([], true)).1 i
    split
    next r2x rest2x heq =>
      rw [hbody] at heq
      cases heq
    next ex rest2x heq =>
      rw [hbody] at heq
      injection heq with heq1 heq2
      subst heq2
      simp only [List.countP_append, List.countP_cons, List.countP_nil,
        ih] at *
      omega
  | case7 pending steps drainIdx r rest hget hput hclose =>
    have hdec : decodedRequests (InMsg.reqMsg r :: rest) = [r] := by
      rw [decodedRequests, if_neg hget, if_neg hput, if_pos hclose]
    rw [serveLoop, hdec, if_neg hget, if_neg hput, if_pos hclose]
    have hflush := countP_flushDrain mux hEcho pending
      (steps.headD ([], true)).1 drainIdx i
    have hcr : (handleRequest mux r).ID = r.ID := hEcho r
    simp only [List.countP_append, List.countP_cons, List.countP_nil,
      hcr] at *
    omega
  | case8 pending steps drainIdx st fl r rest hget hput hclose ih =>
    unfold_let st fl at ih
    rw [serveLoop]
    rw [decodedRequests]
    rw [if_neg hget, if_neg hput, if_neg hclose, if_neg hget, if_neg hput,
      if_neg hclose]
    have hflush := countP_flushOnly mux hEcho pending
      (steps.headD ([], true)).1 i
    simp only [List.countP_append, List.countP_cons, List.countP_nil,
      ih] at *
    omega

/-- C1: every Request with Command `get` or `put` that the read loop
successfully decodes receives exactly one Response carrying its ID in
the outbound trace, under every schedule (every interleaving and every
token-race outcome), assuming handlers echo the request ID in their one
written Response and request IDs are unique across the session.  The
launch paths, the timeout branch, and the put-body-failure path each
account for exactly one Response, and no path writes two. -/
theorem c1_exactly_one_response (mux : Mux) (msgs : List InMsg)
    (steps : List SchedStep) (drainIdx : List Nat)
    (hEcho : ∀ req, (handleRequest mux req).ID = req.ID)
    (hNodup : ((decodedRequests msgs).map Request.ID).Nodup)
    (r : Request) (hr : r ∈ decodedRequests msgs)
    (hcmd : r.Command = CmdGet ∨ r.Command = CmdPut) :
    ((serveLoop mux msgs [] steps drainIdx).out.countP
        (fun resp => decide (resp.ID = r.ID))) = 1 := by
  rw [serveLoop_countP mux hEcho r.ID msgs [] steps drainIdx]
  simp only [List.countP_nil, Nat.zero_add]
  have hmem : r.ID ∈ (decodedRequests msgs).map Request.ID :=
    List.mem_map_of_mem Request.ID hr
  have hcount := List.count_eq_one_of_mem hNodup hmem
  rw [List.count_eq_countP, List.countP_map] at hcount
  rw [← hcount]
  exact List.countP_congr fun x _ => by simp [Function.comp]

/-- Splitting membership in the pending set across a flush: every
pending operation is either completed by the flush or still pending. -/
theorem mem_flushOps_split (pending : List Op) (idxs : List Nat) (op : Op)
    (hop : op ∈ pending) :
    op ∈ (flushOps pending idxs).1 ∨ op ∈ (flushOps pending idxs).2 := by
  rw [← List.mem_append]
  exact (List.Perm.mem_iff (flushOps_perm pending idxs)).2 hop

/-- C2: whenever a run of the read loop terminates normally (that is,
through the `close` branch), the close handler's Response is the last
element of the outbound trace, and the Response of every asynchronous
operation — those pending at entry and every one launched during the
run — appears strictly before it (`wg.Wait` drains before the close
handler runs synchronously). -/
theorem c2_close_response_is_last (mux : Mux) (msgs : List InMsg)
    (pending : List Op) (steps : List SchedStep) (drainIdx : List Nat)
    (hok : (serveLoop mux msgs pending steps drainIdx).result =
      .ok ()) :
    ∃ pre creq, creq.Command = CmdClose ∧
      (serveLoop mux msgs pending steps drainIdx).out =
        pre ++ [handleRequest mux creq] ∧
      ∀ op ∈ pending ++ (serveLoop mux msgs pending steps drainIdx).launched,
        opResponse mux op ∈ pre := by
  induction msgs, pending, steps, drainIdx using serveLoop.induct mux with
  | case1 pending steps drainIdx => rw [serveLoop] at hok; cases hok
  | case2 pending steps drainIdx e tail => rw [serveLoop] at hok; cases hok
  | case3 pending steps drainIdx s tail => rw [serveLoop] at hok; cases hok
  | case4 pending steps drainIdx st fl r rest hget ih =>
    unfold_let st fl at ih
    rw [serveLoop, if_pos hget] at hok ⊢
    dsimp only at hok ⊢
    obtain ⟨pre, creq, hcmd, hout, hmem⟩ := ih hok
    refine ⟨(flushOps pending (steps.headD ([], true)).1).1.map
      (opResponse mux) ++ pre, creq, hcmd, ?_, ?_⟩
    · rw [hout, List.append_assoc]
    · intro op hop
      rcases List.mem_append.1 hop with hop | hop
      · rcases mem_flushOps_split pending (steps.headD ([], true)).1 op hop
          with h1 | h1
        · exact List.mem_append.2 (Or.inl (List.mem_map_of_mem _ h1))
        · exact List.mem_append.2 (Or.inr (hmem op
            (List.mem_append.2 (Or.inl (List.mem_append.2 (Or.inl h1))))))
      · rcases List.mem_cons.1 hop with hop | hop
        · exact List.mem_append.2 (Or.inr (hmem op
            (List.mem_append.2 (Or.inl (List.mem_append.2 (Or.inr
              (by rw [hop]; exact List.mem_singleton_self _)))))))
        · exact List.mem_append.2 (Or.inr (hmem op
            (List.mem_append.2 (Or.inr hop))))
  | case5 pending steps drainIdx st fl r rest hget hput r2 rest2 hbody ih =>
    unfold_let st fl at ih
    rw [serveLoop, if_neg hget, if_pos hput] at hok ⊢
    revert hok
    split
    next r2x rest2x heq =>
      rw [hbody] at heq
      injection heq with heq1 heq2
      injection heq1 with heq1
      subst heq1
      subst heq2
      intro hok
      dsimp only at hok ⊢
      obtain ⟨pre, creq, hcmd, hout, hmem⟩ := ih hok
      refine ⟨(flushOps pending (steps.headD ([], true)).1).1.map
        (opResponse mux) ++ pre, creq, hcmd, ?_, ?_⟩
      · rw [hout, List.append_assoc]
      · intro op hop
        rcases List.mem_append.1 hop with hop | hop
        · rcases mem_flushOps_split pending (steps.headD ([], true)).1 op hop
            with h1 | h1
          · exact List.mem_append.2 (Or.inl (List.mem_map_of_mem _ h1))
          · exact List.mem_append.2 (Or.inr (hmem op
              (List.mem_append.2 (Or.inl (List.mem_append.2 (Or.inl h1))))))
        · rcases List.mem_cons.1 hop with hop | hop
          · exact List.mem_append.2 (Or.inr (hmem op
              (List.mem_append.2 (Or.inl (List.mem_append.2 (Or.inr
                (by rw [hop]; exact List.mem_singleton_self _)))))))
          · exact List.mem_append.2 (Or.inr (hmem op
              (List.mem_append.2 (Or.inr hop))))
    next ex rest2x heq =>
      rw [hbody] at heq
      cases heq
  | case6 pending steps drainIdx st fl r rest hget hput e rest2 hbody ih =>
    unfold_let st fl at ih
    rw [serveLoop, if_neg hget, if_pos hput] at hok ⊢
    revert hok
    split
    next r2x rest2x heq =>
      rw [hbody] at heq
      cases heq
    next ex rest2x heq =>
      rw [hbody] at heq
      injection heq with heq1 heq2
      subst heq2
      intro hok
      dsimp only at hok ⊢
      obtain ⟨pre, creq, hcmd, hout, hmem⟩ := ih hok
      refine ⟨(flushOps pending (steps.headD ([], true)).1).1.map
        (opResponse mux) ++
        ({ ID := r.ID,
           Err := "error: failed to decode request body: " ++ ex } :: pre),
        creq, hcmd, ?_, ?_⟩
      · rw [hout]
        simp only [List.append_assoc, List.cons_append]
      · intro op hop
        rcases List.mem_append.1 hop with hop | hop
        · rcases mem_flushOps_split pending (steps.headD ([], true)).1 op hop
            with h1 | h1
          · exact List.mem_append.2 (Or.inl (List.mem_map_of_mem _ h1))
          · exact List.mem_append.2 (Or.inr (List.mem_cons.2 (Or.inr
              (hmem op (List.mem_append.2 (Or.inl h1))))))
        · exact List.mem_append.2 (Or.inr (List.mem_cons.2 (Or.inr
            (hmem op (List.mem_append.2 (Or.inr hop))))))
  | case7 pending steps drainIdx r rest hget hput hclose =>
    rw [serveLoop, if_neg hget, if_neg hput, if_pos hclose] at hok ⊢
    dsimp only at hok ⊢
    refine ⟨(flushOps pending (steps.headD ([], true)).1).1.map
      (opResponse mux) ++
      (drainAll (flushOps pending (steps.headD ([], true)).1).2
        drainIdx).map (opResponse mux), r, hclose,
      by rw [List.append_assoc], ?_⟩
    intro op hop
    rw [List.append_nil] at hop
    rcases mem_flushOps_split pending (steps.headD ([], true)).1 op hop
      with h1 | h1
    · exact List.mem_append.2 (Or.inl (List.mem_map_of_mem _ h1))
    · exact List.mem_append.2 (Or.inr (List.mem_map_of_mem _
        ((List.Perm.mem_iff (drainAll_perm _ drainIdx)).2 h1)))
  | case8 pending steps drainIdx st fl r rest hget hput hclose ih =>
    unfold_let st fl at ih
    rw [serveLoop, if_neg hget, if_neg hput, if_neg hclose] at hok ⊢
    dsimp only at hok ⊢
    obtain ⟨pre, creq, hcmd, hout, hmem⟩ := ih hok
    refine ⟨(flushOps pending (steps.headD ([], true)).1).1.map
      (opResponse mux) ++
      ({ ID := r.ID, Err := "error: " ++ r.Command ++ " is unknown command" }
        :: pre), creq, hcmd, ?_, ?_⟩
    · rw [hout]
      simp only [List.append_assoc, List.cons_append]
    · intro op hop
      rcases List.mem_append.1 hop with hop | hop
      · rcases mem_flushOps_split pending (steps.headD ([], true)).1 op hop
          with h1 | h1
        · exact List.mem_append.2 (Or.inl (List.mem_map_of_mem _ h1))
        · exact List.mem_append.2 (Or.inr (List.mem_cons.2 (Or.inr
            (hmem op (List.mem_append.2 (Or.inl h1))))))
      · exact List.mem_append.2 (Or.inr (List.mem_cons.2 (Or.inr
          (hmem op (List.mem_append.2 (Or.inr hop))))))

/-- C6: when decoding the next top-level message fails, the read loop
first completes every pending asynchronous operation (`wg.Wait`), then
returns the decode error wrapped as `error: invalid request: ...`; the
loop itself writes no Response in this branch (`sync = []`) and launches
nothing, so everything written after the failure is the drained
operations' own Responses, one per pending operation. -/
theorem c6_fatal_decode_drains_then_errors (mux : Mux) (e : String)
    (rest : List InMsg) (pending : List Op) (steps : List SchedStep)
    (drainIdx : List Nat) :
    ∃ l : List Op, l.Perm pending ∧
      serveLoop mux (.badMsg e :: rest) pending steps drainIdx =
        { out := l.map (opResponse mux), launched := [], sync := [],
          result := .error ("error: invalid request: " ++ e) } := by
  refine ⟨(flushOps pending (steps.headD ([], true)).1).1 ++
    drainAll (flushOps pending (steps.headD ([], true)).1).2 drainIdx,
    ?_, ?_⟩
  · exact ((List.Perm.append_left _
      (drainAll_perm _ drainIdx)).trans
      (flushOps_perm pending (steps.headD ([], true)).1))
  · rw [serveLoop, List.map_append]

/-- C7: the first message a session writes is the ID=0 announcement,
produced by `server.ack` before the read loop touches the inbound
stream (its shape does not depend on `msgs`), and its KnownCommands
field holds exactly the command kinds with a registered handler. -/
theorem c7_announcement_first (mux : Mux) (msgs : List InMsg)
    (steps : List SchedStep) (drainIdx : List Nat) :
    (serve mux msgs steps drainIdx).out =
      ackResponse mux :: (serveLoop mux msgs [] steps drainIdx).out ∧
    (ackResponse mux).ID = 0 ∧
    (∀ c : Cmd, c ∈ (ackResponse mux).KnownCommands ↔
      (mux.lookup c).isSome = true) := by
  refine ⟨rfl, rfl, ?_⟩
  intro c
  have hgp : CmdGet ≠ CmdPut := by decide
  have hgc : CmdGet ≠ CmdClose := by decide
  have hpc : CmdPut ≠ CmdClose := by decide
  obtain ⟨mg, mp, mc, mw⟩ := mux
  by_cases hg : c = CmdGet
  · subst hg
    cases mg <;> cases mp <;> cases mc <;>
      simp [ackResponse, Mux.knownCommands, Mux.lookup, hgp, hgc, hpc,
        hgp.symm, hgc.symm, hpc.symm]
  · by_cases hp : c = CmdPut
    · subst hp
      cases mg <;> cases mp <;> cases mc <;>
        simp [ackResponse, Mux.knownCommands, Mux.lookup, hg, hgp, hgc,
          hpc, hgp.symm, hgc.symm, hpc.symm]
    · by_cases hc : c = CmdClose
      · subst hc
        cases mg <;> cases mp <;> cases mc <;>
          simp [ackResponse, Mux.knownCommands, Mux.lookup, hg, hp, hgp,
            hgc, hpc, hgp.symm, hgc.symm, hpc.symm]
      · cases mg <;> cases mp <;> cases mc <;>
          simp [ackResponse, Mux.knownCommands, Mux.lookup, hg, hp, hc]

/-- C9: a Request whose Command is none of get, put, close makes the
dispatcher write exactly one synchronous error Response naming the
command as unknown and carrying the request's ID; no asynchronous work
is launched for it (the still-pending set is passed through unchanged
and `launched` gains nothing), and the loop continues with the rest of
the stream. -/
theorem c9_unknown_command_sync_error (mux : Mux) (r : Request)
    (rest : List InMsg) (pending : List Op) (steps : List SchedStep)
    (drainIdx : List Nat) (hget : r.Command ≠ CmdGet)
    (hput : r.Command ≠ CmdPut) (hclose : r.Command ≠ CmdClose) :
    serveLoop mux (.reqMsg r :: rest) pending steps drainIdx =
      { out := (flushOps pending (steps.headD ([], true)).1).1.map
            (opResponse mux) ++
          { ID := r.ID,
            Err := "error: " ++ r.Command ++ " is unknown command" } ::
          (serveLoop mux rest (flushOps pending (steps.headD ([], true)).1).2
            steps.tail drainIdx).out,
        launched := (serveLoop mux rest
          (flushOps pending (steps.headD ([], true)).1).2
          steps.tail drainIdx).launched,
        sync := { ID := r.ID,
                  Err := "error: " ++ r.Command ++ " is unknown command" } ::
          (serveLoop mux rest (flushOps pending (steps.headD ([], true)).1).2
            steps.tail drainIdx).sync,
        result := (serveLoop mux rest
          (flushOps pending (steps.headD ([], true)).1).2
          steps.tail drainIdx).result } := by
  rw [serveLoop, if_neg hget, if_neg hput, if_neg hclose]

theorem Apply_append_singleton (h : Handler) (ms : List Middleware)
    (m : Middleware) :
    Mux.Apply h (ms ++ [m]) = Mux.Apply (m h) ms := by
  unfold Mux.Apply
  have hlen : (ms ++ [m]).length = ms.length + 1 := by simp
  rw [hlen, List.range_succ_eq_map, List.foldl_cons, List.foldl_map]
  have hfirst : (ms ++ [m]).getD (ms.length + 1 - 1 - 0) (fun x => x) = m := by
    simp only [Nat.add_sub_cancel, Nat.sub_zero]
    rw [List.getD_append_right ms [m] _ ms.length (Nat.le_refl _)]
    simp
  rw [hfirst]
  refine List.foldl_ext _ _ (m h) fun acc j hj => ?_
  have hjlt : j < ms.length := List.mem_range.1 hj
  have hidx : ms.length + 1 - 1 - Nat.succ j = ms.length - 1 - j := by omega
  rw [hidx, List.getD_append ms [m] _ _ (by omega)]

theorem Apply_eq_foldr (ms : List Middleware) :
    ∀ h : Handler, Mux.Apply h ms = ms.foldr (fun m k => m k) h := by
  induction ms using List.reverseRecOn with
  | nil => intro h; rfl
  | append_singleton ms m ih =>
    intro h
    rw [Apply_append_singleton, ih (m h), List.foldr_append]
    exact rfl

/-- C8: `Use` accumulates middleware in registration order, and `Apply`
composes the accumulated list `m1, ..., mn` around a handler as
`m1 (m2 (... (mn h)))` — the nested `foldr` form — so the
first-registered middleware is the outermost wrapper: on a cons list
the head is applied to the composition of the rest. -/
theorem c8_middleware_outermost_first :
    (∀ (h : Handler) (ms : List Middleware),
      Mux.Apply h ms = ms.foldr (fun m k => m k) h) ∧
    (∀ (h : Handler) (m : Middleware) (ms : List Middleware),
      Mux.Apply h (m :: ms) = m (Mux.Apply h ms)) ∧
    (∀ (mux : Mux) (ms1 ms2 : List Middleware),
      ((mux.use ms1).use ms2).middleware =
        mux.middleware ++ (ms1 ++ ms2)) := by
  refine ⟨fun h ms => Apply_eq_foldr ms h, fun h m ms => ?_,
    fun mux ms1 ms2 => ?_⟩
  · rw [Apply_eq_foldr, Apply_eq_foldr, List.foldr_cons]
  · simp [Mux.use]

/-- The put request used in concrete body-decoding scenarios: declared
body size 5. -/
def putReq5 : Request := { ID := 2, Command := CmdPut, BodySize := 5 }

/-- The put request with a declared body size of zero. -/
def putReq0 : Request := { ID := 3, Command := CmdPut, BodySize := 0 }

/-- C3, counterexample: the claim says decoding the body must fail
whenever the base64 string cannot produce at least `BodySize` bytes.
At the concrete input `putReq5` (BodySize 5) followed by the JSON
string `""` — whose base64 decoding yields zero bytes — `decodePutBody`
nevertheless succeeds: the source stores the string in a lazy decoder
without any length validation, so the universally quantified claim is
false. -/
theorem c3_counterexample_no_length_check :
    (0 : Int) < putReq5.BodySize ∧
    base64Decode "" = some [] ∧
    (decodePutBody putReq5 [.strMsg ""]).1 =
      .ok { putReq5 with bodyB64 := "" } ∧
    ¬ (∀ (req : Request) (s : String) (rest : List InMsg),
        0 < req.BodySize →
        (∀ bytes, base64Decode s = some bytes →
          (bytes.length : Int) < req.BodySize) →
        ∃ e rest2,
          decodePutBody req (.strMsg s :: rest) = (.error e, rest2)) := by
  refine ⟨by decide, rfl, by decide, ?_⟩
  intro hclaim
  obtain ⟨e, rest2, heq⟩ := hclaim putReq5 "" [] (by decide)
    (fun bytes hb => by
      rw [show base64Decode "" = some [] from rfl] at hb
      cases hb
      decide)
  have : (decodePutBody putReq5 [.strMsg ""]).1 = .error e := by
    rw [heq]
  rw [show (decodePutBody putReq5 [.strMsg ""]).1 =
      .ok { putReq5 with bodyB64 := "" } from by decide] at this
  cases this

/-- C3, amended: for `BodySize == 0` the Body is an empty stream and no
extra message is consumed; for `BodySize > 0` the decode succeeds —
storing the raw string as the lazy body, with no length check — exactly
when the next inbound value is a JSON string, and fails with a
body-decode error exactly when it is not. -/
theorem c3_amended_body_decode (req : Request) (msgs : List InMsg) :
    (req.BodySize = 0 →
      decodePutBody req msgs = (.ok { req with bodyB64 := "" }, msgs)) ∧
    (req.BodySize ≠ 0 → ∀ s rest, msgs = .strMsg s :: rest →
      decodePutBody req msgs = (.ok { req with bodyB64 := s }, rest)) ∧
    (req.BodySize ≠ 0 → (∀ s rest, msgs ≠ .strMsg s :: rest) →
      ∃ e, (decodePutBody req msgs).1 = .error e) := by
  refine ⟨fun h => by unfold decodePutBody; rw [if_pos h], ?_, ?_⟩
  · intro h s rest hm
    subst hm
    unfold decodePutBody
    rw [if_neg h]
  · intro h hne
    unfold decodePutBody
    rw [if_neg h]
    cases msgs with
    | nil => exact ⟨"EOF", rfl⟩
    | cons m rest =>
      cases m with
      | reqMsg r =>
        exact ⟨"json: cannot unmarshal object into Go value of type string",
          rfl⟩
      | strMsg s => exact absurd rfl (hne s rest)
      | badMsg e => exact ⟨e, rfl⟩

theorem c3_amended_witness :
    decodePutBody putReq5 [.strMsg ""] =
      (.ok { putReq5 with bodyB64 := "" }, []) ∧
    decodePutBody putReq0 [.strMsg "x"] =
      (.ok { putReq0 with bodyB64 := "" }, [.strMsg "x"]) := by
  constructor
  · exact (c3_amended_body_decode putReq5 [.strMsg ""]).2.1
      (by decide) "" [] rfl
  · exact (c3_amended_body_decode putReq0 [.strMsg "x"]).1 (by decide)

/-- C4, code evaluated at the failing input: in the source the
`context.WithTimeout` call sits at the top of the loop iteration,
before `Decode`, so the deadline is iteration start plus the timeout.
With a 30-unit timeout and a request whose decoding (waiting on stdin)
takes 31 units, the deadline (30) passes before the operation is even
launched (31), and it differs from the launch-time-plus-timeout value
(61) the claim asserts. -/
theorem c4_code_bug_timeout_predates_decode :
    (∀ (t : IterTiming) (timeout : Nat),
      ctxDeadline t timeout = t.iterStart + timeout) ∧
    ctxDeadline ⟨0, 31, 0⟩ 30 = 30 ∧
    launchTime ⟨0, 31, 0⟩ = 31 ∧
    ctxDeadline ⟨0, 31, 0⟩ 30 < launchTime ⟨0, 31, 0⟩ ∧
    ctxDeadline ⟨0, 31, 0⟩ 30 ≠ launchTime ⟨0, 31, 0⟩ + 30 :=
  ⟨fun _ _ => rfl, rfl, rfl, by decide, by decide⟩

/-- C5: by the `select` in `asyncHandleRequest`, an operation whose
context deadline fires before a token is acquired writes exactly the
one cancellation error Response for its request's ID and never runs
the handler chain; an operation that acquires a token runs
`s.handleRequest` (the composed chain) on the request, writes exactly
its one Response, and releases the token when it returns.  The session
model's `opResponse` agrees with this goroutine body in both cases. -/
theorem c5_token_race_behaviour (mux : Mux) (req : Request) :
    (asyncOpRun mux req Race.ctxDone).written =
      [{ ID := req.ID,
         Err := "context canceled: context deadline exceeded" }] ∧
    (asyncOpRun mux req Race.ctxDone).handlerRan = false ∧
    (asyncOpRun mux req Race.ctxDone).tokenReleased = false ∧
    (asyncOpRun mux req Race.token).written = [handleRequest mux req] ∧
    (asyncOpRun mux req Race.token).handlerRan = true ∧
    (asyncOpRun mux req Race.token).tokenReleased = true ∧
    (∀ op : Op, [opResponse mux op] =
      (asyncOpRun mux op.req
        (if op.tokenAcquired then Race.token else Race.ctxDone)).written) := by
  refine ⟨rfl, rfl, rfl, rfl, rfl, rfl, fun op => ?_⟩
  cases h : op.tokenAcquired <;> simp [asyncOpRun, opResponse, h]

/-- C10: `WithConcurrency` takes an unsigned integer, so zero is
accepted and produces a semaphore channel of capacity zero; no
occupancy ever satisfies the acquisition condition, so the only
feasible outcome of the launch race is the context-deadline branch:
the operation writes the cancellation error Response and the handler
is never invoked. -/
theorem c10_zero_concurrency_never_runs_handler (cfg : ServerConfig)
    (mux : Mux) (req : Request) (o : Race)
    (hfeas : feasibleRace (WithConcurrency 0 cfg).semCap o) :
    (WithConcurrency 0 cfg).semCap = 0 ∧
    (∀ inUse, canAcquireToken (WithConcurrency 0 cfg).semCap inUse = false) ∧
    o = Race.ctxDone ∧
    (asyncOpRun mux req o).written =
      [{ ID := req.ID,
         Err := "context canceled: context deadline exceeded" }] ∧
    (asyncOpRun mux req o).handlerRan = false := by
  have hno : ∀ inUse, canAcquireToken 0 inUse = false := fun inUse => by
    simp [canAcquireToken]
  have ho : o = Race.ctxDone := by
    cases o with
    | token =>
      obtain ⟨inUse, hacq⟩ := hfeas rfl
      rw [show (WithConcurrency 0 cfg).semCap = 0 from rfl, hno inUse]
        at hacq
      cases hacq
    | ctxDone => rfl
  subst ho
  exact ⟨rfl, fun u => hno u, rfl, rfl, rfl⟩

theorem c10_witness :
    feasibleRace (WithConcurrency 0 {}).semCap Race.ctxDone ∧
    ((WithConcurrency 0 {}).semCap = 0 ∧
      (∀ inUse,
        canAcquireToken (WithConcurrency 0 {}).semCap inUse = false) ∧
      Race.ctxDone = Race.ctxDone ∧
      (asyncOpRun {} { ID := 7, Command := CmdGet }
          Race.ctxDone).written =
        [{ ID := ({ ID := 7, Command := CmdGet } : Request).ID,
           Err := "context canceled: context deadline exceeded" }] ∧
      (asyncOpRun {} { ID := 7, Command := CmdGet }
          Race.ctxDone).handlerRan = false) := by
  have hfeas : feasibleRace (WithConcurrency 0 {}).semCap Race.ctxDone := by
    intro h
    cases h
  exact ⟨hfeas, c10_zero_concurrency_never_runs_handler {} {}
    { ID := 7, Command := CmdGet } Race.ctxDone hfeas⟩

/-- A concrete get handler for witness sessions: always reports a miss. -/
def hGetDemo : Handler := fun r => { ID := r.ID, Miss := true }

/-- A concrete put handler for witness sessions. -/
def hPutDemo : Handler := fun r =>
  { ID := r.ID, DiskPath := "/tmp/cache/obj" }

/-- A concrete close handler for witness sessions. -/
def hCloseDemo : Handler := fun r => { ID := r.ID }

/-- A registry with all three commands registered and no middleware. -/
def demoMux : Mux :=
  { mGet := some hGetDemo, mPut := some hPutDemo, mClose := some hCloseDemo }

theorem demoMux_echo : ∀ req, (handleRequest demoMux req).ID = req.ID := by
  intro req
  by_cases h1 : req.Command = CmdGet
  · simp [handleRequest, Mux.lookup, demoMux, h1, Mux.Apply, hGetDemo,
      CmdGet, CmdPut, CmdClose]
  · by_cases h2 : req.Command = CmdPut
    · simp [handleRequest, Mux.lookup, demoMux, h1, h2, Mux.Apply, hPutDemo,
        CmdGet, CmdPut, CmdClose]
    · by_cases h3 : req.Command = CmdClose
      · simp [handleRequest, Mux.lookup, demoMux, h1, h2, h3, Mux.Apply,
          hCloseDemo, CmdGet, CmdPut, CmdClose]
      · simp [handleRequest, Mux.lookup, demoMux, h1, h2, h3]

def getReq1 : Request := { ID := 1, Command := CmdGet, ActionID := [171] }

def putReq2 : Request := { ID := 2, Command := CmdPut, BodySize := 5 }

def closeReq3 : Request := { ID := 3, Command := CmdClose }

/-- A witness session: a get, a put with its base64 body, and a close. -/
def msgsW1 : List InMsg :=
  [.reqMsg getReq1, .reqMsg putReq2, .strMsg "aGVsbG8=", .reqMsg closeReq3]

theorem decodedRequests_msgsW1 :
    decodedRequests msgsW1 = [getReq1, putReq2, closeReq3] := by
  simp [decodedRequests, msgsW1, getReq1, putReq2, closeReq3, decodePutBody,
    CmdGet, CmdPut, CmdClose]

theorem c1_witness :
    (∀ req, (handleRequest demoMux req).ID = req.ID) ∧
    ((decodedRequests msgsW1).map Request.ID).Nodup ∧
    getReq1 ∈ decodedRequests msgsW1 ∧
    (getReq1.Command = CmdGet ∨ getReq1.Command = CmdPut) ∧
    ((serveLoop demoMux msgsW1 [] [] []).out.countP
        (fun resp => decide (resp.ID = getReq1.ID))) = 1 := by
  have hNodup : ((decodedRequests msgsW1).map Request.ID).Nodup := by
    rw [decodedRequests_msgsW1]
    decide
  have hmem : getReq1 ∈ decodedRequests msgsW1 := by
    rw [decodedRequests_msgsW1]
    exact List.mem_cons_self _ _
  exact ⟨demoMux_echo, hNodup, hmem, Or.inl rfl,
    c1_exactly_one_response demoMux msgsW1 [] [] demoMux_echo hNodup
      getReq1 hmem (Or.inl rfl)⟩

def getReq4 : Request := { ID := 4, Command := CmdGet }

def closeReq5 : Request := { ID := 5, Command := CmdClose }

/-- A witness session ending in close for the drain-before-close claim. -/
def msgsW2 : List InMsg := [.reqMsg getReq4, .reqMsg closeReq5]

theorem c2_witness :
    (serveLoop demoMux msgsW2 [] [] []).result = .ok () ∧
    ∃ pre creq, creq.Command = CmdClose ∧
      (serveLoop demoMux msgsW2 [] [] []).out =
        pre ++ [handleRequest demoMux creq] ∧
      ∀ op ∈ ([] : List Op) ++ (serveLoop demoMux msgsW2 [] [] []).launched,
        opResponse demoMux op ∈ pre := by
  have hok : (serveLoop demoMux msgsW2 [] [] []).result = .ok () := by
    simp [serveLoop, msgsW2, getReq4, closeReq5, flushOps, drainAll,
      drainAux, CmdGet, CmdPut, CmdClose]
  exact ⟨hok, c2_close_response_is_last demoMux msgsW2 [] [] [] hok⟩

def frobReq : Request := { ID := 2, Command := "frobnicate" }

def closeReq9 : Request := { ID := 9, Command := CmdClose }

theorem c9_witness :
    frobReq.Command ≠ CmdGet ∧ frobReq.Command ≠ CmdPut ∧
    frobReq.Command ≠ CmdClose ∧
    (serveLoop demoMux [.reqMsg frobReq, .reqMsg closeReq9] [] [] []).out =
      [{ ID := 2, Err := "error: frobnicate is unknown command" },
       handleRequest demoMux closeReq9] := by
  refine ⟨by decide, by decide, by decide, ?_⟩
  have h := c9_unknown_command_sync_error demoMux frobReq
    [.reqMsg closeReq9] [] [] [] (by decide) (by decide) (by decide)
  rw [h]
  simp [serveLoop, flushOps, drainAll, drainAux, frobReq, closeReq9,
    CmdGet, CmdPut, CmdClose]

end GoCacheProg
